import Mathlib

/-!
Shallow embedding of the ckamock quiz trainer (src/res/checks.py and the
matching utility layer of src/main.py): the command normalizer, the syntax
probe and its create/delete flag mutation, the interactive answer-collection
loop, and the checklist matcher.  Strings are modelled through their
character lists; the word-character class of the regex engine is modelled in
its ASCII fragment (letters, digits, underscore), and Python whitespace in
its ASCII fragment, which is the range the program's inputs use.
-/

namespace Ckamock

/-- ASCII fragment of the regex word class: letters, digits, underscore. -/
def isWordChar (c : Char) : Bool := c.isAlphanum || c == '_'

/-- Whitespace as used by str.strip and argument-free str.split. -/
def isPySpace (c : Char) : Bool :=
  c == ' ' || c == '\t' || c == '\n' || c == '\r' ||
  c == Char.ofNat 11 || c == Char.ofNat 12

/-- Boundary flag read off the characters to the right of a position: true
when the next character is absent (the flag `e` gives the end-of-list
context) or is a non-word character. -/
def headNW (l : List Char) (e : Bool) : Bool :=
  match l with
  | [] => e
  | d :: _ => !isWordChar d

/-- Embedding of re.sub of a word-bounded single letter k by kubectl: a
character k is replaced exactly when the previous character is absent or
non-word (flag `pnw`) and the next character is absent or non-word.  After a
replaced or copied character the flag for the rest is recomputed from that
original character, as the regex engine scans the original string. -/
def subKAux : Bool → List Char → List Char
  | _, [] => []
  | pnw, c :: rest =>
    if c == 'k' && pnw && headNW rest true then
      "kubectl".data ++ subKAux false rest
    else
      c :: subKAux (!isWordChar c) rest

/-- Does the list contain a word-bounded k?  `pnw` is the boundary flag of
the position before the list, `e` the boundary context at its very end. -/
def hasSKC : Bool → List Char → Bool → Bool
  | _, [], _ => false
  | pnw, c :: rest, e =>
    (c == 'k' && pnw && headNW rest e) || hasSKC (!isWordChar c) rest e

/-- A word-bounded k somewhere in the list, with a string edge at its end. -/
def hasSK (pnw : Bool) (l : List Char) : Bool := hasSKC pnw l true

/-- Boundary flag after scanning a list, starting from flag `pnw`. -/
def endCtx (pnw : Bool) : List Char → Bool
  | [] => pnw
  | c :: rest => endCtx (!isWordChar c) rest

/-- str.strip: drop whitespace from both ends. -/
def pyStripData (l : List Char) : List Char :=
  ((l.dropWhile isPySpace).reverse.dropWhile isPySpace).reverse

/-- str.strip on strings. -/
def pyStrip (s : String) : String := ⟨pyStripData s.data⟩

/-- Worker for argument-free str.split: `acc` holds the reversed pending
token. -/
def splitAux : List Char → List Char → List (List Char)
  | acc, [] => if acc.isEmpty then [] else [acc.reverse]
  | acc, c :: rest =>
    if isPySpace c then
      if acc.isEmpty then splitAux [] rest else acc.reverse :: splitAux [] rest
    else
      splitAux (c :: acc) rest

/-- Argument-free str.split: whitespace runs separate tokens, no empties. -/
def splitWsData (l : List Char) : List (List Char) := splitAux [] l

/-- Single-space join, as produced by joining split tokens with a space. -/
def joinSpaceData : List (List Char) → List Char
  | [] => []
  | [t] => t
  | t :: ts => t ++ ' ' :: joinSpaceData ts

/-- Newline join of the collected command lines, as built by the caller of
the collector before checklist matching. -/
def joinNLData : List (List Char) → List Char
  | [] => []
  | [t] => t
  | t :: ts => t ++ '\n' :: joinNLData ts

/-- Newline join on strings. -/
def joinNL (cmds : List String) : String := ⟨joinNLData (cmds.map String.data)⟩

/-- Is the first list a prefix of the second? -/
def isPrefB : List Char → List Char → Bool
  | [], _ => true
  | _ :: _, [] => false
  | a :: as, b :: bs => a == b && isPrefB as bs

/-- Does the first list contain the second as a contiguous segment? -/
def hasInfix (hay needle : List Char) : Bool :=
  isPrefB needle hay ||
    match hay with
    | [] => false
    | _ :: t => hasInfix t needle

/-- str.startswith. -/
def strStarts (s p : String) : Bool := isPrefB p.data s.data

/-- Python substring membership, the `in` test on strings. -/
def strContains (s pat : String) : Bool := hasInfix s.data pat.data

/-- ASCII str.lower. -/
def lowerStr (s : String) : String := ⟨s.data.map Char.toLower⟩

/-- The alias table of checks.py, keys and values as character lists. -/
def ALIASES : List (List Char × List Char) :=
  [("sa".data, "serviceaccount".data),
   ("ds".data, "daemonset".data),
   ("sts".data, "statefulset".data),
   ("cr".data, "clusterrole".data),
   ("rb".data, "rolebinding".data),
   ("pv".data, "persistentvolume".data),
   ("pvc".data, "persistentvolumeclaim".data)]

/-- Association lookup in the alias table. -/
def lookupAlias : List (List Char × List Char) → List Char → Option (List Char)
  | [], _ => none
  | (k, v) :: rest, t => if k == t then some v else lookupAlias rest t

/-- One step of the alias loop: a token equal to a key becomes its value,
any other token is kept. -/
def applyAliasD (t : List Char) : List Char :=
  match lookupAlias ALIASES t with
  | some v => v
  | none => t

/-- replace_aliases of checks.py: strip, split on whitespace, rewrite each
token through the alias table, join with single spaces. -/
def replaceAliasesData (l : List Char) : List Char :=
  joinSpaceData ((splitWsData (pyStripData l)).map applyAliasD)

/-- replace_aliases on strings. -/
def replace_aliases (cmd : String) : String := ⟨replaceAliasesData cmd.data⟩

/-- canonicalize_kubectl of main.py: only the word-bounded k rewrite. -/
def canonicalize_kubectl_main (cmd : String) : String := ⟨subKAux true cmd.data⟩

/-- canonicalize_kubectl of checks.py: the word-bounded k rewrite followed
by the alias pass. -/
def canonicalize_kubectl (cmd : String) : String :=
  replace_aliases ⟨subKAux true cmd.data⟩

/-- Insertion at an index, the list.insert of Python: past-the-end indices
append at the end. -/
def insertAt {α : Type} : Nat → α → List α → List α
  | 0, a, l => a :: l
  | _ + 1, a, [] => [a]
  | n + 1, a, c :: t => c :: insertAt n a t

/-- Outcome of the probe subprocess, the environment part of
syntax_check_cli: a completed run with an exit code, expiry of the short
timeout, a missing executable, or any other raised error. -/
inductive ProbeOutcome where
  | exited (code : Int)
  | timedOut
  | toolMissing
  | raised
deriving DecidableEq

/-- Classification written identically in both branches of
syntax_check_cli: zero exit accepted, non-zero rejected, timeout accepted,
missing tool rejected, any other error rejected. -/
def classifyOutcome : ProbeOutcome → Bool
  | .exited code => code == 0
  | .timedOut => true
  | .toolMissing => false
  | .raised => false

/-- syntax_check_cli of checks.py, with the subprocess behaviour supplied
as a ProbeOutcome: lines holding a pipe or redirect go through the shell
branch, all others through the token branch; both branches classify the
outcome by the same rule. -/
def syntax_check_cli (cmd : String) (probe : ProbeOutcome) : Bool :=
  if strContains cmd "|" || strContains cmd ">" then
    classifyOutcome probe
  else
    classifyOutcome probe

/-- Token list of cmd.strip().split() as strings. -/
def splitTokens (cmd : String) : List String :=
  (splitWsData (pyStripData cmd.data)).map fun t => ⟨t⟩

/-- The token sequence the token branch of syntax_check_cli hands to the
subprocess: for a kubectl line whose second token is create or delete, a
dry-run flag is inserted at index 2 when no token starts with --dry-run,
and an output pair -o yaml at indices 3 and 4 when no token is -o and none
starts with --output; the second test runs after the first insertion, as
the Python list is mutated in place. -/
def syntax_check_tokens (cmd : String) : List String :=
  let tokens := splitTokens cmd
  if strStarts (lowerStr cmd) "kubectl " && decide (2 ≤ tokens.length) &&
      (tokens.getD 1 "" == "create" || tokens.getD 1 "" == "delete") then
    let tokens1 :=
      if tokens.any fun t => strStarts t "--dry-run" then tokens
      else insertAt 2 "--dry-run=client" tokens
    if tokens1.any fun t => t == "-o" || strStarts t "--output" then tokens1
    else insertAt 4 "yaml" (insertAt 3 "-o" tokens1)
  else tokens

/-- One line of the interactive session: the raw text the user typed, the
behaviour of the probe subprocess if the line is probed, and the text the
user would answer at a retry prompt if one is shown. -/
structure InputLine where
  text : String
  probe : ProbeOutcome
  retryResponse : String
deriving DecidableEq

/-- Observable side actions of the collector loop, in order: a help
dispatch, a probe run, a retry prompt. -/
inductive Action where
  | ranHelp (line : String)
  | probed (line : String)
  | promptedRetry (line : String)
deriving DecidableEq

/-- The leading-token families routed to the probe: kubectl, kubeadm,
apt-get, systemctl, tested on the lowercased line. -/
def probeableFamily (line : String) : Bool :=
  strStarts (lowerStr line) "kubectl" || strStarts (lowerStr line) "kubeadm" ||
  strStarts (lowerStr line) "apt-get" || strStarts (lowerStr line) "systemctl"

/-- get_user_commands_with_syntax_check of checks.py over a stream of input
lines, returning the answer buffer and the trace of side actions.  Each
line is stripped, then normalized; a blank line ends the loop; a line
holding --help is dispatched to help and never stored; a line starting with
ETCDCTL_API= is stored without a probe; a probeable-family line is probed
and stored unless the probe rejects it and the user answer at the retry
prompt starts, lowercased, with y; every other line is stored unchecked.
The q10 mock branch only prints and is not part of the observable state
modelled here. -/
def get_user_commands_with_syntax_check :
    List InputLine → List String × List Action
  | [] => ([], [])
  | l :: rest =>
    if pyStrip l.text = "" then ([], [])
    else
      if strContains (canonicalize_kubectl (pyStrip l.text)) "--help" then
        ((get_user_commands_with_syntax_check rest).1,
         .ranHelp (canonicalize_kubectl (pyStrip l.text)) ::
           (get_user_commands_with_syntax_check rest).2)
      else if strStarts (canonicalize_kubectl (pyStrip l.text)) "ETCDCTL_API=" then
        (canonicalize_kubectl (pyStrip l.text) ::
           (get_user_commands_with_syntax_check rest).1,
         (get_user_commands_with_syntax_check rest).2)
      else if probeableFamily (canonicalize_kubectl (pyStrip l.text)) then
        if syntax_check_cli (canonicalize_kubectl (pyStrip l.text)) l.probe then
          (canonicalize_kubectl (pyStrip l.text) ::
             (get_user_commands_with_syntax_check rest).1,
           .probed (canonicalize_kubectl (pyStrip l.text)) ::
             (get_user_commands_with_syntax_check rest).2)
        else if strStarts (lowerStr l.retryResponse) "y" then
          ((get_user_commands_with_syntax_check rest).1,
           .probed (canonicalize_kubectl (pyStrip l.text)) ::
             .promptedRetry (canonicalize_kubectl (pyStrip l.text)) ::
               (get_user_commands_with_syntax_check rest).2)
        else
          (canonicalize_kubectl (pyStrip l.text) ::
             (get_user_commands_with_syntax_check rest).1,
           .probed (canonicalize_kubectl (pyStrip l.text)) ::
             .promptedRetry (canonicalize_kubectl (pyStrip l.text)) ::
               (get_user_commands_with_syntax_check rest).2)
      else
        (canonicalize_kubectl (pyStrip l.text) ::
           (get_user_commands_with_syntax_check rest).1,
         (get_user_commands_with_syntax_check rest).2)

/-- check_against_checklist of checks.py: walk the checklist in order and
route each item by a case-insensitive substring test of the item against
the whole answer text. -/
def check_against_checklist (final_answer : String) (checklist : List String) :
    List String × List String :=
  checklist.foldl
    (fun acc item =>
      if strContains (lowerStr final_answer) (lowerStr item) then
        (acc.1 ++ [item], acc.2)
      else
        (acc.1, acc.2 ++ [item]))
    ([], [])

/-! Helper lemmas. -/

theorem syntax_check_cli_eq (cmd : String) (p : ProbeOutcome) :
    syntax_check_cli cmd p = classifyOutcome p := by
  unfold syntax_check_cli
  split <;> rfl

theorem isPrefB_head (a : Char) (p d : List Char) (h : isPrefB (a :: p) d = true) :
    ∃ t, d = a :: t := by
  cases d with
  | nil => simp [isPrefB] at h
  | cons c cs =>
    refine ⟨cs, ?_⟩
    simp only [isPrefB, Bool.and_eq_true, beq_iff_eq] at h
    rw [h.1]

theorem isPrefB_cons_ne (a c : Char) (p t : List Char) (h : (a == c) = false) :
    isPrefB (a :: p) (c :: t) = false := by
  simp [isPrefB, h]

theorem probeable_not_etcd (line : String) (h : probeableFamily line = true) :
    strStarts line "ETCDCTL_API=" = false := by
  by_contra hne
  have he : strStarts line "ETCDCTL_API=" = true := by
    cases hv : strStarts line "ETCDCTL_API="
    · exact absurd hv hne
    · rfl
  have hEdata : "ETCDCTL_API=".data = 'E' :: "TCDCTL_API=".data := by decide
  rw [strStarts, hEdata] at he
  obtain ⟨tl, htl⟩ := isPrefB_head _ _ _ he
  have hlow : (lowerStr line).data = 'e' :: tl.map Char.toLower := by
    simp [lowerStr, htl]
  have hk : "kubectl".data = 'k' :: "ubectl".data := by decide
  have ha : "apt-get".data = 'a' :: "pt-get".data := by decide
  have hs : "systemctl".data = 's' :: "ystemctl".data := by decide
  have hk2 : "kubeadm".data = 'k' :: "ubeadm".data := by decide
  rw [probeableFamily, strStarts, strStarts, strStarts, strStarts,
      hlow, hk, ha, hs, hk2] at h
  rw [isPrefB_cons_ne _ _ _ _ (by decide), isPrefB_cons_ne _ _ _ _ (by decide),
      isPrefB_cons_ne _ _ _ _ (by decide), isPrefB_cons_ne _ _ _ _ (by decide)] at h
  simp at h

/-! Claim theorems for the answer-collection loop. -/

/-- C1: a probed candidate line whose probe subprocess exceeds the short
timeout is classified accepted by syntax_check_cli, is appended to the
answer buffer, and the step shows no retry prompt (its action trace is the
probe alone), whatever the pending retry response. -/
theorem timeout_line_accepted_and_kept (t r : String) (rest : List InputLine)
    (h1 : pyStrip t ≠ "")
    (h2 : strContains (canonicalize_kubectl (pyStrip t)) "--help" = false)
    (h3 : probeableFamily (canonicalize_kubectl (pyStrip t)) = true) :
    syntax_check_cli (canonicalize_kubectl (pyStrip t)) ProbeOutcome.timedOut = true ∧
    get_user_commands_with_syntax_check (⟨t, ProbeOutcome.timedOut, r⟩ :: rest) =
      (canonicalize_kubectl (pyStrip t) ::
         (get_user_commands_with_syntax_check rest).1,
       Action.probed (canonicalize_kubectl (pyStrip t)) ::
         (get_user_commands_with_syntax_check rest).2) := by
  have hcls : syntax_check_cli (canonicalize_kubectl (pyStrip t))
      ProbeOutcome.timedOut = true := by
    rw [syntax_check_cli_eq]; rfl
  refine ⟨hcls, ?_⟩
  have hetcd := probeable_not_etcd _ h3
  simp only [get_user_commands_with_syntax_check]
  rw [if_neg h1]
  simp [h2, hetcd, h3, hcls]

/-- C1 witness: a concrete timed-out kubectl line is accepted and appended,
with only a probe action recorded. -/
theorem timeout_line_accepted_and_kept_witness :
    syntax_check_cli (canonicalize_kubectl (pyStrip "kubectl get pods"))
      ProbeOutcome.timedOut = true ∧
    get_user_commands_with_syntax_check
        (⟨"kubectl get pods", ProbeOutcome.timedOut, ""⟩ :: []) =
      (canonicalize_kubectl (pyStrip "kubectl get pods") ::
         (get_user_commands_with_syntax_check []).1,
       Action.probed (canonicalize_kubectl (pyStrip "kubectl get pods")) ::
         (get_user_commands_with_syntax_check []).2) :=
  timeout_line_accepted_and_kept "kubectl get pods" "" []
    (by decide) (by decide) (by decide)

/-- C5: a non-blank line whose normalized form holds the --help marker is
dispatched to the help routine and the answer buffer is left unchanged by
that step. -/
theorem help_line_dispatched_not_stored (t r : String) (p : ProbeOutcome)
    (rest : List InputLine)
    (h1 : pyStrip t ≠ "")
    (h2 : strContains (canonicalize_kubectl (pyStrip t)) "--help" = true) :
    get_user_commands_with_syntax_check (⟨t, p, r⟩ :: rest) =
      ((get_user_commands_with_syntax_check rest).1,
       Action.ranHelp (canonicalize_kubectl (pyStrip t)) ::
         (get_user_commands_with_syntax_check rest).2) := by
  simp only [get_user_commands_with_syntax_check]
  rw [if_neg h1]
  simp [h2]

/-- C5 witness: a concrete help line leaves the buffer of the remaining
stream unchanged. -/
theorem help_line_dispatched_not_stored_witness :
    get_user_commands_with_syntax_check
        (⟨"kubectl create --help", ProbeOutcome.exited 0, ""⟩ ::
          [⟨"echo done", ProbeOutcome.exited 0, ""⟩]) =
      ((get_user_commands_with_syntax_check
          [⟨"echo done", ProbeOutcome.exited 0, ""⟩]).1,
       Action.ranHelp (canonicalize_kubectl (pyStrip "kubectl create --help")) ::
         (get_user_commands_with_syntax_check
           [⟨"echo done", ProbeOutcome.exited 0, ""⟩]).2) :=
  help_line_dispatched_not_stored "kubectl create --help" "" (ProbeOutcome.exited 0)
    [⟨"echo done", ProbeOutcome.exited 0, ""⟩] (by decide) (by decide)

/-- C7: a non-blank, non-help line outside every probeable family, in
particular any line starting with ETCDCTL_API=, is appended to the buffer
with no probe and no retry prompt (the action trace of the step is empty). -/
theorem unprobeable_line_kept_without_probe (t r : String) (p : ProbeOutcome)
    (rest : List InputLine)
    (h1 : pyStrip t ≠ "")
    (h2 : strContains (canonicalize_kubectl (pyStrip t)) "--help" = false)
    (h3 : strStarts (canonicalize_kubectl (pyStrip t)) "ETCDCTL_API=" = true ∨
          probeableFamily (canonicalize_kubectl (pyStrip t)) = false) :
    get_user_commands_with_syntax_check (⟨t, p, r⟩ :: rest) =
      (canonicalize_kubectl (pyStrip t) ::
         (get_user_commands_with_syntax_check rest).1,
       (get_user_commands_with_syntax_check rest).2) := by
  rcases h3 with he | hf
  · simp only [get_user_commands_with_syntax_check]
    rw [if_neg h1]
    simp [h2, he]
  · by_cases he : strStarts (canonicalize_kubectl (pyStrip t)) "ETCDCTL_API=" = true
    · simp only [get_user_commands_with_syntax_check]
      rw [if_neg h1]
      simp [h2, he]
    · simp only [get_user_commands_with_syntax_check]
      rw [if_neg h1]
      simp [h2, hf, eq_false_of_ne_true he]

/-- C7 witness: a concrete ETCDCTL_API= line and a concrete unrecognized
line are both appended with an empty action trace. -/
theorem unprobeable_line_kept_without_probe_witness :
    get_user_commands_with_syntax_check
        (⟨"ETCDCTL_API=3 etcdctl snapshot save /srv/backup.db",
          ProbeOutcome.raised, ""⟩ :: []) =
      (canonicalize_kubectl
          (pyStrip "ETCDCTL_API=3 etcdctl snapshot save /srv/backup.db") ::
         (get_user_commands_with_syntax_check []).1,
       (get_user_commands_with_syntax_check []).2) ∧
    get_user_commands_with_syntax_check
        (⟨"sudo -i", ProbeOutcome.raised, ""⟩ :: []) =
      (canonicalize_kubectl (pyStrip "sudo -i") ::
         (get_user_commands_with_syntax_check []).1,
       (get_user_commands_with_syntax_check []).2) :=
  ⟨unprobeable_line_kept_without_probe
      "ETCDCTL_API=3 etcdctl snapshot save /srv/backup.db" "" ProbeOutcome.raised []
      (by decide) (by decide) (Or.inl (by decide)),
   unprobeable_line_kept_without_probe "sudo -i" "" ProbeOutcome.raised []
      (by decide) (by decide) (Or.inr (by decide))⟩

/-- C10: at the retry prompt after a rejection, the rejected line is
discarded exactly when the lowercased response starts with y; any other
response, the empty response included, keeps the line in the buffer. -/
theorem retry_prompt_only_y_discards (t r : String) (p : ProbeOutcome)
    (rest : List InputLine)
    (h1 : pyStrip t ≠ "")
    (h2 : strContains (canonicalize_kubectl (pyStrip t)) "--help" = false)
    (h3 : probeableFamily (canonicalize_kubectl (pyStrip t)) = true)
    (h4 : syntax_check_cli (canonicalize_kubectl (pyStrip t)) p = false) :
    (strStarts (lowerStr r) "y" = true →
      (get_user_commands_with_syntax_check (⟨t, p, r⟩ :: rest)).1 =
        (get_user_commands_with_syntax_check rest).1) ∧
    (strStarts (lowerStr r) "y" = false →
      (get_user_commands_with_syntax_check (⟨t, p, r⟩ :: rest)).1 =
        canonicalize_kubectl (pyStrip t) ::
          (get_user_commands_with_syntax_check rest).1) ∧
    strStarts (lowerStr "") "y" = false := by
  have hetcd := probeable_not_etcd _ h3
  refine ⟨fun hy => ?_, fun hn => ?_, by decide⟩
  · simp only [get_user_commands_with_syntax_check]
    rw [if_neg h1]
    simp [h2, hetcd, h3, h4, hy]
  · simp only [get_user_commands_with_syntax_check]
    rw [if_neg h1]
    simp [h2, hetcd, h3, h4, hn]

/-- C10 witness: after a concrete rejection, response y discards the line
and the empty response keeps it. -/
theorem retry_prompt_only_y_discards_witness :
    (strStarts (lowerStr "y") "y" = true →
      (get_user_commands_with_syntax_check
          (⟨"kubectl get pod x", ProbeOutcome.exited 1, "y"⟩ :: [])).1 =
        (get_user_commands_with_syntax_check []).1) ∧
    (strStarts (lowerStr "y") "y" = false →
      (get_user_commands_with_syntax_check
          (⟨"kubectl get pod x", ProbeOutcome.exited 1, "y"⟩ :: [])).1 =
        canonicalize_kubectl (pyStrip "kubectl get pod x") ::
          (get_user_commands_with_syntax_check []).1) ∧
    strStarts (lowerStr "") "y" = false :=
  retry_prompt_only_y_discards "kubectl get pod x" "y" (ProbeOutcome.exited 1) []
    (by decide) (by decide) (by decide) (by decide)

/-- C6: a probed line the probe rejected and whose retry response declines
is force-appended to the buffer; the buffer, and hence any checklist match
over the joined answer, is the same as if the probe had accepted the line. -/
theorem rejected_line_kept_on_decline (t r : String) (p : ProbeOutcome)
    (rest : List InputLine) (cl : List String)
    (h1 : pyStrip t ≠ "")
    (h2 : strContains (canonicalize_kubectl (pyStrip t)) "--help" = false)
    (h3 : probeableFamily (canonicalize_kubectl (pyStrip t)) = true)
    (h4 : syntax_check_cli (canonicalize_kubectl (pyStrip t)) p = false)
    (h5 : strStarts (lowerStr r) "y" = false) :
    (get_user_commands_with_syntax_check (⟨t, p, r⟩ :: rest)).1 =
      canonicalize_kubectl (pyStrip t) ::
        (get_user_commands_with_syntax_check rest).1 ∧
    (get_user_commands_with_syntax_check (⟨t, p, r⟩ :: rest)).1 =
      (get_user_commands_with_syntax_check
        (⟨t, ProbeOutcome.exited 0, r⟩ :: rest)).1 ∧
    check_against_checklist
        (joinNL (get_user_commands_with_syntax_check (⟨t, p, r⟩ :: rest)).1) cl =
      check_against_checklist
        (joinNL (get_user_commands_with_syntax_check
          (⟨t, ProbeOutcome.exited 0, r⟩ :: rest)).1) cl := by
  have hetcd := probeable_not_etcd _ h3
  have hacc : syntax_check_cli (canonicalize_kubectl (pyStrip t))
      (ProbeOutcome.exited 0) = true := by
    rw [syntax_check_cli_eq]; rfl
  have hkept : (get_user_commands_with_syntax_check (⟨t, p, r⟩ :: rest)).1 =
      canonicalize_kubectl (pyStrip t) ::
        (get_user_commands_with_syntax_check rest).1 := by
    simp only [get_user_commands_with_syntax_check]
    rw [if_neg h1]
    simp [h2, hetcd, h3, h4, h5]
  have haccbuf : (get_user_commands_with_syntax_check
      (⟨t, ProbeOutcome.exited 0, r⟩ :: rest)).1 =
      canonicalize_kubectl (pyStrip t) ::
        (get_user_commands_with_syntax_check rest).1 := by
    simp only [get_user_commands_with_syntax_check]
    rw [if_neg h1]
    simp [h2, hetcd, h3, hacc]
  refine ⟨hkept, hkept.trans haccbuf.symm, ?_⟩
  rw [hkept.trans haccbuf.symm]

/-- C6 witness: a concrete rejected kubectl line kept on decline yields the
same buffer and the same checklist split as an accepted run of the line. -/
theorem rejected_line_kept_on_decline_witness :
    (get_user_commands_with_syntax_check
        (⟨"kubectl get pod x", ProbeOutcome.exited 1, "n"⟩ :: [])).1 =
      canonicalize_kubectl (pyStrip "kubectl get pod x") ::
        (get_user_commands_with_syntax_check []).1 ∧
    (get_user_commands_with_syntax_check
        (⟨"kubectl get pod x", ProbeOutcome.exited 1, "n"⟩ :: [])).1 =
      (get_user_commands_with_syntax_check
        (⟨"kubectl get pod x", ProbeOutcome.exited 0, "n"⟩ :: [])).1 ∧
    check_against_checklist
        (joinNL (get_user_commands_with_syntax_check
          (⟨"kubectl get pod x", ProbeOutcome.exited 1, "n"⟩ :: [])).1)
        ["kubectl get pod"] =
      check_against_checklist
        (joinNL (get_user_commands_with_syntax_check
          (⟨"kubectl get pod x", ProbeOutcome.exited 0, "n"⟩ :: [])).1)
        ["kubectl get pod"] :=
  rejected_line_kept_on_decline "kubectl get pod x" "n" (ProbeOutcome.exited 1) []
    ["kubectl get pod"] (by decide) (by decide) (by decide) (by decide) (by decide)

/-! Checklist matcher. -/

theorem foldl_route (p : String → Bool) (cl : List String) (f0 m0 : List String) :
    cl.foldl
      (fun acc item =>
        if p item then (acc.1 ++ [item], acc.2) else (acc.1, acc.2 ++ [item]))
      (f0, m0) =
    (f0 ++ cl.filter p, m0 ++ cl.filter fun i => !(p i)) := by
  induction cl generalizing f0 m0 with
  | nil => simp
  | cons b l ih =>
    by_cases hb : p b = true
    · simp [hb, ih, List.filter_cons]
    · simp [eq_false_of_ne_true hb, ih, List.filter_cons]

theorem cac_eq_filter (ans : String) (cl : List String) :
    check_against_checklist ans cl =
      (cl.filter (fun item => strContains (lowerStr ans) (lowerStr item)),
       cl.filter (fun item => !(strContains (lowerStr ans) (lowerStr item)))) := by
  unfold check_against_checklist
  simpa using foldl_route (fun item => strContains (lowerStr ans) (lowerStr item)) cl [] []

theorem count_filter_add {α : Type} [DecidableEq α] (p : α → Bool) (l : List α)
    (a : α) :
    (l.filter p).count a + (l.filter fun x => !(p x)).count a = l.count a := by
  induction l with
  | nil => simp
  | cons b l ih =>
    cases hb : p b
    · rw [List.filter_cons_of_neg (by simp [hb]), List.filter_cons_of_pos (by simp [hb])]
      by_cases hba : a = b
      · subst hba
        rw [List.count_cons_self, List.count_cons_self]
        omega
      · rw [List.count_cons_of_ne hba, List.count_cons_of_ne hba]
        omega
    · rw [List.filter_cons_of_pos (by simp [hb]), List.filter_cons_of_neg (by simp [hb])]
      by_cases hba : a = b
      · subst hba
        rw [List.count_cons_self, List.count_cons_self]
        omega
      · rw [List.count_cons_of_ne hba, List.count_cons_of_ne hba]
        omega

/-- C4: the checklist matcher splits the checklist into found and missing,
each a sublist of the checklist (so the original order is preserved and
together they count every item exactly once), and an item lands in found
exactly when its lowercased text occurs inside the lowercased answer. -/
theorem checklist_split_partitions (ans : String) (cl : List String) :
    List.Sublist (check_against_checklist ans cl).1 cl ∧
    List.Sublist (check_against_checklist ans cl).2 cl ∧
    (∀ item, item ∈ (check_against_checklist ans cl).1 ↔
      item ∈ cl ∧ strContains (lowerStr ans) (lowerStr item) = true) ∧
    (∀ item, item ∈ (check_against_checklist ans cl).2 ↔
      item ∈ cl ∧ strContains (lowerStr ans) (lowerStr item) = false) ∧
    (∀ item, (check_against_checklist ans cl).1.count item +
      (check_against_checklist ans cl).2.count item = cl.count item) := by
  rw [cac_eq_filter]
  refine ⟨List.filter_sublist _, List.filter_sublist _, ?_, ?_, ?_⟩
  · intro item; simp [List.mem_filter]
  · intro item; simp [List.mem_filter]
  · intro item; exact count_filter_add _ cl item

/-! Probe mutation of create and delete lines. -/

/-- C2: for a kubectl create or delete line with no dry-run flag and no
output flag anywhere, the token sequence handed to the probe subprocess
holds exactly one token starting with --dry-run, namely --dry-run=client at
index 2, and exactly one output token, namely the pair -o yaml at indices 3
and 4, whatever the other tokens are. -/
theorem mutation_inserts_flags_once (cmd : String)
    (hk : strStarts (lowerStr cmd) "kubectl " = true)
    (hsub : (splitTokens cmd).getD 1 "" = "create" ∨
            (splitTokens cmd).getD 1 "" = "delete")
    (hdry : ∀ tk ∈ splitTokens cmd, strStarts tk "--dry-run" = false)
    (hout : ∀ tk ∈ splitTokens cmd, (tk == "-o" || strStarts tk "--output") = false) :
    List.countP (fun tk => strStarts tk "--dry-run") (syntax_check_tokens cmd) = 1 ∧
    List.countP (fun tk => tk == "-o" || strStarts tk "--output")
      (syntax_check_tokens cmd) = 1 ∧
    (syntax_check_tokens cmd).get? 2 = some "--dry-run=client" ∧
    (syntax_check_tokens cmd).get? 3 = some "-o" ∧
    (syntax_check_tokens cmd).get? 4 = some "yaml" := by
  obtain ⟨a, b, restT, hT⟩ : ∃ a b restT, splitTokens cmd = a :: b :: restT := by
    rcases hsp : splitTokens cmd with _ | ⟨a, tl⟩
    · rw [hsp] at hsub; rcases hsub with h | h <;> simp [List.getD] at h
    · rcases tl with _ | ⟨b, r⟩
      · rw [hsp] at hsub; rcases hsub with h | h <;> simp [List.getD] at h
      · exact ⟨a, b, r, rfl⟩
  have ha : strStarts a "--dry-run" = false := hdry a (by rw [hT]; exact List.mem_cons_self _ _)
  have hb : strStarts b "--dry-run" = false :=
    hdry b (by rw [hT]; exact List.mem_cons_of_mem _ (List.mem_cons_self _ _))
  have hrestdry : ∀ tk ∈ restT, strStarts tk "--dry-run" = false := fun tk htk =>
    hdry tk (by rw [hT]; exact List.mem_cons_of_mem _ (List.mem_cons_of_mem _ htk))
  have hao : (a == "-o" || strStarts a "--output") = false :=
    hout a (by rw [hT]; exact List.mem_cons_self _ _)
  have hbo : (b == "-o" || strStarts b "--output") = false :=
    hout b (by rw [hT]; exact List.mem_cons_of_mem _ (List.mem_cons_self _ _))
  have hresto : ∀ tk ∈ restT, (tk == "-o" || strStarts tk "--output") = false :=
    fun tk htk =>
      hout tk (by rw [hT]; exact List.mem_cons_of_mem _ (List.mem_cons_of_mem _ htk))
  have hb2 : b = "create" ∨ b = "delete" := by
    rcases hsub with h | h <;> rw [hT] at h <;> simp [List.getD] at h <;>
      [exact Or.inl h; exact Or.inr h]
  have hrestdry' : restT.any (fun tk => strStarts tk "--dry-run") = false := by
    rw [List.any_eq_false]; intro x hx; simp [hrestdry x hx]
  have hresto' : restT.any (fun tk => tk == "-o" || strStarts tk "--output") = false := by
    rw [List.any_eq_false]; intro x hx; simp [hresto x hx]
  have e1 : strStarts "--dry-run=client" "--dry-run" = true := by decide
  have e2 : strStarts "-o" "--dry-run" = false := by decide
  have e3 : strStarts "yaml" "--dry-run" = false := by decide
  have f1 : (("--dry-run=client" : String) == "-o" ||
      strStarts "--dry-run=client" "--output") = false := by decide
  have f2 : (("-o" : String) == "-o" || strStarts "-o" "--output") = true := by decide
  have f3 : (("yaml" : String) == "-o" || strStarts "yaml" "--output") = false := by
    decide
  have g1 : (("--dry-run=client" : String) == "-o") = false := by decide
  have g2 : strStarts "--dry-run=client" "--output" = false := by decide
  have g3 : strStarts "-o" "--output" = false := by decide
  have g4 : (("yaml" : String) == "-o") = false := by decide
  have g5 : strStarts "yaml" "--output" = false := by decide
  have hmut : syntax_check_tokens cmd =
      a :: b :: "--dry-run=client" :: "-o" :: "yaml" :: restT := by
    simp only [syntax_check_tokens, hT]
    have hcnd : (strStarts (lowerStr cmd) "kubectl " &&
        decide (2 ≤ (a :: b :: restT).length) &&
        ((a :: b :: restT).getD 1 "" == "create" ||
         (a :: b :: restT).getD 1 "" == "delete")) = true := by
      rcases hb2 with h | h <;>
        simp [hk, h, List.getD, Nat.le_add_left, List.length_cons]
    rw [if_pos hcnd]
    have hany1 : ((a :: b :: restT).any fun tk => strStarts tk "--dry-run") = false := by
      simp [List.any_cons, ha, hb, hrestdry']
    rw [hany1]
    simp only [Bool.false_eq_true, if_false]
    have hins : insertAt 2 "--dry-run=client" (a :: b :: restT) =
        a :: b :: "--dry-run=client" :: restT := rfl
    rw [hins]
    have hany2 : ((a :: b :: "--dry-run=client" :: restT).any
        fun tk => tk == "-o" || strStarts tk "--output") = false := by
      simp [List.any_cons, hao, hbo, hresto', g1, g2]
    rw [hany2]
    simp only [Bool.false_eq_true, if_false]
    rfl
  rw [hmut]
  have hcd : List.countP (fun tk => strStarts tk "--dry-run") restT = 0 :=
    List.countP_eq_zero.mpr fun x hx => by simp [hrestdry x hx]
  have hco : List.countP (fun tk => tk == "-o" || strStarts tk "--output") restT = 0 :=
    List.countP_eq_zero.mpr fun x hx => by simp [hresto x hx]
  refine ⟨?_, ?_, rfl, rfl, rfl⟩
  · simp [List.countP_cons, hcd, ha, hb, e1, e2, e3]
  · simp [List.countP_cons, hco, hao, hbo, g1, g2, g3, g4, g5]

/-- C2 witness: a concrete kubectl create line with no dry-run or output
flags is mutated to carry exactly one of each, in place. -/
theorem mutation_inserts_flags_once_witness :
    List.countP (fun tk => strStarts tk "--dry-run")
      (syntax_check_tokens "kubectl create deployment web --image=nginx") = 1 ∧
    List.countP (fun tk => tk == "-o" || strStarts tk "--output")
      (syntax_check_tokens "kubectl create deployment web --image=nginx") = 1 ∧
    (syntax_check_tokens "kubectl create deployment web --image=nginx").get? 2 =
      some "--dry-run=client" ∧
    (syntax_check_tokens "kubectl create deployment web --image=nginx").get? 3 =
      some "-o" ∧
    (syntax_check_tokens "kubectl create deployment web --image=nginx").get? 4 =
      some "yaml" :=
  mutation_inserts_flags_once "kubectl create deployment web --image=nginx"
    (by decide) (Or.inl (by decide)) (by decide) (by decide)

/-! Word-boundary lemmas for the k rewrite. -/

theorem headNW_append (u v : List Char) (e : Bool) :
    headNW (u ++ v) e = headNW u (headNW v e) := by
  cases u <;> rfl

theorem hasSKC_append (u v : List Char) (pnw e : Bool) :
    hasSKC pnw (u ++ v) e =
      (hasSKC pnw u (headNW v e) || hasSKC (endCtx pnw u) v e) := by
  induction u generalizing pnw with
  | nil => simp [hasSKC, endCtx]
  | cons c u ih =>
    simp only [List.cons_append, hasSKC, endCtx, headNW_append, List.append_eq,
      ih, Bool.or_assoc]

theorem subKAux_of_not_hasSK (l : List Char) (pnw : Bool)
    (h : hasSK pnw l = false) : subKAux pnw l = l := by
  induction l generalizing pnw with
  | nil => rfl
  | cons c rest ih =>
    rw [hasSK, hasSKC, Bool.or_eq_false_iff] at h
    simp only [subKAux, h.1, Bool.false_eq_true, if_false]
    rw [ih _ h.2]

theorem length_subKAux (l : List Char) (pnw : Bool) :
    l.length ≤ (subKAux pnw l).length ∧
    (hasSK pnw l = true → l.length < (subKAux pnw l).length) := by
  induction l generalizing pnw with
  | nil => simp [subKAux, hasSK, hasSKC]
  | cons c rest ih =>
    have h7 : ("kubectl".data).length = 7 := by decide
    cases hcond : (c == 'k' && pnw && headNW rest true)
    · simp only [subKAux, hcond, Bool.false_eq_true, if_false, List.length_cons]
      refine ⟨Nat.succ_le_succ (ih _).1, fun h => ?_⟩
      rw [hasSK, hasSKC, hcond] at h
      simp only [Bool.false_or] at h
      exact Nat.succ_lt_succ ((ih _).2 h)
    · simp only [subKAux, hcond, if_true, List.length_append, List.length_cons, h7]
      have hle := (ih false).1
      exact ⟨by omega, fun _ => by omega⟩

theorem subKAux_false_cons (d : Char) (r : List Char) :
    subKAux false (d :: r) = d :: subKAux (!isWordChar d) r := by
  simp [subKAux]

theorem hasSK_subKAux (l : List Char) (pnw : Bool) :
    hasSK pnw (subKAux pnw l) = false := by
  induction l generalizing pnw with
  | nil => rfl
  | cons c rest ih =>
    have kub7 : ∀ f e : Bool, hasSKC f "kubectl".data e = false := by decide
    have endkub : endCtx true "kubectl".data = false := by decide
    cases hcond : (c == 'k' && pnw && headNW rest true)
    · simp only [subKAux, hcond, Bool.false_eq_true, if_false]
      rw [hasSK, hasSKC, Bool.or_eq_false_iff]
      refine ⟨?_, ih _⟩
      cases hcp : (c == 'k' && pnw)
      · exact Bool.false_and _
      · rw [Bool.true_and]
        have hc : (c == 'k') = true := by
          cases hv : (c == 'k')
          · rw [hv, Bool.false_and] at hcp; simp at hcp
          · rfl
        have hrest : headNW rest true = false := by
          cases hh : headNW rest true
          · rfl
          · rw [hcp, hh, Bool.true_and] at hcond; simp at hcond
        cases rest with
        | nil => simp [headNW] at hrest
        | cons d r =>
          have hd : isWordChar d = true := by
            cases hv : isWordChar d
            · simp [headNW, hv] at hrest
            · rfl
          have hck : c = 'k' := beq_iff_eq.mp hc
          have hwc : (!isWordChar c) = false := by rw [hck]; decide
          rw [hwc, subKAux_false_cons]
          simp [headNW, hd]
    · have hp : pnw = true := by
        cases hv : pnw
        · rw [hv, Bool.and_false, Bool.false_and] at hcond; simp at hcond
        · rfl
      subst hp
      simp only [subKAux, hcond, if_true]
      rw [hasSK, hasSKC_append, Bool.or_eq_false_iff]
      refine ⟨kub7 _ _, ?_⟩
      rw [endkub]
      exact ih false

/-! Claims about the shorthand rewrite. -/

/-- C3 counterexample: in the line echo -k, the second whitespace token is
-k, which is not the bare shorthand k, yet the Normalizer rewrites it to
-kubectl, in both the checks.py and the main.py versions. -/
theorem shorthand_rewrite_cex :
    splitWsData (pyStripData "echo -k".data) = ["echo".data, "-k".data] ∧
    ("-k" : String) ≠ "k" ∧
    canonicalize_kubectl "echo -k" = "echo -kubectl" ∧
    canonicalize_kubectl_main "echo -k" = "echo -kubectl" ∧
    canonicalize_kubectl "echo -k" ≠ "echo -k" := by decide

/-- C3 amended: the Normalizer rewrites the shorthand at regex word
boundaries, not only on token-exact matches: the rewrite leaves a line
unchanged exactly when the line has no occurrence of k whose two
neighbours, or the line edges, are non-word characters.  A shorthand
letter embedded between word characters, as in disk, is kept, while
tokens such as -k or k=1 are rewritten. -/
theorem shorthand_rewrite_word_boundary (s : String) :
    (canonicalize_kubectl_main s = s ↔ hasSK true s.data = false) ∧
    canonicalize_kubectl_main "disk" = "disk" ∧
    canonicalize_kubectl_main "-k" = "-kubectl" ∧
    canonicalize_kubectl_main "k=1" = "kubectl=1" ∧
    canonicalize_kubectl_main "k" = "kubectl" := by
  refine ⟨⟨fun h => ?_, fun h => ?_⟩, by decide, by decide, by decide, by decide⟩
  · by_contra hne
    have htrue : hasSK true s.data = true := by
      cases hv : hasSK true s.data
      · exact absurd hv hne
      · rfl
    have hlt := (length_subKAux s.data true).2 htrue
    have hdata : subKAux true s.data = s.data := congrArg String.data h
    rw [hdata] at hlt
    exact absurd hlt (lt_irrefl _)
  · show (⟨subKAux true s.data⟩ : String) = s
    rw [subKAux_of_not_hasSK _ _ h]

/-! Structure of whitespace splitting. -/

theorem space_not_word (c : Char) (h : isPySpace c = true) : isWordChar c = false := by
  simp only [isPySpace, Bool.or_eq_true, beq_iff_eq] at h
  rcases h with ((((h | h) | h) | h) | h) | h <;> subst h <;> decide

theorem space_ne_k (c : Char) (h : isPySpace c = true) : (c == 'k') = false := by
  simp only [isPySpace, Bool.or_eq_true, beq_iff_eq] at h
  rcases h with ((((h | h) | h) | h) | h) | h <;> subst h <;> decide

theorem dropWhile_len_le {α : Type} (p : α → Bool) (l : List α) :
    (l.dropWhile p).length ≤ l.length := by
  induction l with
  | nil => simp
  | cons c r ih =>
    rw [List.dropWhile_cons]
    cases hp : p c
    · simp
    · simp only [if_true]
      exact Nat.le_succ_of_le ih

theorem dropWhile_head_false {α : Type} (p : α → Bool) (l : List α) (a : α)
    (h : (l.dropWhile p).head? = some a) : p a = false := by
  induction l with
  | nil => simp [List.dropWhile] at h
  | cons c r ih =>
    rw [List.dropWhile_cons] at h
    cases hp : p c
    · rw [hp] at h
      simp only [Bool.false_eq_true, if_false, List.head?_cons, Option.some_inj] at h
      rw [← h]; exact hp
    · rw [hp] at h
      simp only [if_true] at h
      exact ih h

theorem splitWsData_cons_space (c : Char) (l : List Char) (h : isPySpace c = true) :
    splitWsData (c :: l) = splitWsData l := by
  simp [splitWsData, splitAux, h]

theorem splitAux_pending (l : List Char) : ∀ acc : List Char, acc ≠ [] →
    splitAux acc l =
      (acc.reverse ++ l.takeWhile fun d => !isPySpace d) ::
        splitWsData (l.dropWhile fun d => !isPySpace d) := by
  induction l with
  | nil =>
    intro acc hacc
    have hne : acc.isEmpty = false := by
      cases acc
      · exact absurd rfl hacc
      · rfl
    simp [splitAux, splitWsData, hne]
  | cons c t ih =>
    intro acc hacc
    cases hc : isPySpace c
    · simp only [splitAux, hc, Bool.false_eq_true, if_false]
      rw [ih (c :: acc) (by simp)]
      simp [List.takeWhile_cons, List.dropWhile_cons, hc]
    · have hne : acc.isEmpty = false := by
        cases acc
        · exact absurd rfl hacc
        · rfl
      simp only [splitAux, hc, if_true, hne, Bool.false_eq_true, if_false]
      rw [List.takeWhile_cons, List.dropWhile_cons]
      simp only [hc, Bool.not_true, Bool.false_eq_true, if_false]
      rw [List.append_nil, splitWsData_cons_space c t hc]
      rfl

theorem splitWsData_cons_nonspace (c : Char) (l : List Char)
    (h : isPySpace c = false) :
    splitWsData (c :: l) =
      (c :: l.takeWhile fun d => !isPySpace d) ::
        splitWsData (l.dropWhile fun d => !isPySpace d) := by
  rw [splitWsData]
  simp only [splitAux, h, Bool.false_eq_true, if_false]
  rw [splitAux_pending l [c] (by simp)]
  simp

theorem splitWsData_tokens_good :
    ∀ (n : Nat) (l : List Char), l.length ≤ n → ∀ t ∈ splitWsData l,
      t ≠ [] ∧ ∀ c ∈ t, isPySpace c = false := by
  intro n
  induction n with
  | zero =>
    intro l hl t ht
    have : l = [] := List.eq_nil_of_length_eq_zero (Nat.le_zero.mp hl)
    subst this
    simp [splitWsData, splitAux] at ht
  | succ n ih =>
    intro l hl t ht
    cases l with
    | nil => simp [splitWsData, splitAux] at ht
    | cons c r =>
      cases hc : isPySpace c
      · rw [splitWsData_cons_nonspace c r hc] at ht
        rcases List.mem_cons.mp ht with hteq | ht2
        · subst hteq
          refine ⟨by simp, ?_⟩
          intro x hx
          rcases List.mem_cons.mp hx with hx | hx
          · subst hx; exact hc
          · have hx2 := List.mem_takeWhile_imp hx
            cases hv : isPySpace x
            · rfl
            · rw [hv] at hx2; simp at hx2
        · refine ih (r.dropWhile fun d => !isPySpace d) ?_ t ht2
          have h1 := dropWhile_len_le (fun d => !isPySpace d) r
          have h2 : r.length + 1 ≤ n + 1 := by simpa using hl
          omega
      · rw [splitWsData_cons_space c r hc] at ht
        refine ih r ?_ t ht
        have h2 : r.length + 1 ≤ n + 1 := by simpa using hl
        omega

theorem splitWsData_good (l : List Char) :
    ∀ t ∈ splitWsData l, t ≠ [] ∧ ∀ c ∈ t, isPySpace c = false :=
  splitWsData_tokens_good l.length l (le_refl _)

theorem hasSK_tail_of_space (c : Char) (r : List Char) (hc : isPySpace c = true)
    (h : hasSK true (c :: r) = false) : hasSK true r = false := by
  rw [hasSK, hasSKC] at h
  rw [space_ne_k c hc, Bool.false_and, Bool.false_and, Bool.false_or,
      space_not_word c hc] at h
  exact h

theorem tokens_skfree :
    ∀ (n : Nat) (l : List Char), l.length ≤ n → hasSK true l = false →
      ∀ t ∈ splitWsData l, hasSK true t = false := by
  intro n
  induction n with
  | zero =>
    intro l hl _ t ht
    have : l = [] := List.eq_nil_of_length_eq_zero (Nat.le_zero.mp hl)
    subst this
    simp [splitWsData, splitAux] at ht
  | succ n ih =>
    intro l hl hsk t ht
    cases l with
    | nil => simp [splitWsData, splitAux] at ht
    | cons c r =>
      cases hc : isPySpace c
      · rw [splitWsData_cons_nonspace c r hc] at ht
        have hr : (r.takeWhile fun d => !isPySpace d) ++
            (r.dropWhile fun d => !isPySpace d) = r :=
          List.takeWhile_append_dropWhile _ _
        have hdwnw : headNW (r.dropWhile fun d => !isPySpace d) true = true := by
          cases hdw : (r.dropWhile fun d => !isPySpace d) with
          | nil => rfl
          | cons d dtail =>
            have hd := dropWhile_head_false (fun x => !isPySpace x) r d
              (by rw [hdw]; rfl)
            have hdb : (!isPySpace d) = false := hd
            have hd2 : isPySpace d = true := by
              cases hv : isPySpace d
              · rw [hv] at hdb; simp at hdb
              · rfl
            simp [headNW, space_not_word d hd2]
        rw [hasSK, hasSKC] at hsk
        rw [← hr, headNW_append, hdwnw] at hsk
        rw [hasSKC_append] at hsk
        rw [hdwnw] at hsk
        rw [Bool.or_eq_false_iff] at hsk
        obtain ⟨hskH, hskT⟩ := hsk
        rw [Bool.or_eq_false_iff] at hskT
        obtain ⟨hskA, hskB⟩ := hskT
        rcases List.mem_cons.mp ht with hteq | ht2
        · subst hteq
          rw [hasSK, hasSKC, Bool.or_eq_false_iff]
          exact ⟨hskH, hskA⟩
        · have hdwsk : hasSK true (r.dropWhile fun d => !isPySpace d) = false := by
            cases hdw : (r.dropWhile fun d => !isPySpace d) with
            | nil => rfl
            | cons d dtail =>
              have hd := dropWhile_head_false (fun x => !isPySpace x) r d
                (by rw [hdw]; rfl)
              have hdb : (!isPySpace d) = false := hd
              have hd2 : isPySpace d = true := by
                cases hv : isPySpace d
                · rw [hv] at hdb; simp at hdb
                · rfl
              rw [hdw] at hskB
              rw [hasSK, hasSKC]
              rw [hasSKC] at hskB
              rw [space_ne_k d hd2, Bool.false_and, Bool.false_and, Bool.false_or] at hskB ⊢
              exact hskB
          refine ih (r.dropWhile fun d => !isPySpace d) ?_ hdwsk t ht2
          have h1 := dropWhile_len_le (fun d => !isPySpace d) r
          have h2 : r.length + 1 ≤ n + 1 := by simpa using hl
          omega
      · rw [splitWsData_cons_space c r hc] at ht
        refine ih r ?_ (hasSK_tail_of_space c r hc hsk) t ht
        have h2 : r.length + 1 ≤ n + 1 := by simpa using hl
        omega

theorem hasSK_dropWhile_front (u : List Char) (h : hasSK true u = false) :
    hasSK true (u.dropWhile isPySpace) = false := by
  induction u with
  | nil => exact h
  | cons c r ih =>
    rw [List.dropWhile_cons]
    cases hc : isPySpace c
    · simp only [Bool.false_eq_true, if_false]
      exact h
    · simp only [if_true]
      exact ih (hasSK_tail_of_space c r hc h)

theorem hasSK_left_of_append (m w : List Char) (hw : ∀ c ∈ w, isPySpace c = true)
    (h : hasSK true (m ++ w) = false) : hasSK true m = false := by
  rw [hasSK, hasSKC_append] at h
  have hh : headNW w true = true := by
    cases w with
    | nil => rfl
    | cons d ws => simp [headNW, space_not_word d (hw d (List.mem_cons_self _ _))]
  rw [hh, Bool.or_eq_false_iff] at h
  exact h.1

theorem hasSK_pyStrip (l : List Char) (h : hasSK true l = false) :
    hasSK true (pyStripData l) = false := by
  rw [pyStripData]
  have h1 : hasSK true (l.dropWhile isPySpace) = false := hasSK_dropWhile_front l h
  have hdecomp : l.dropWhile isPySpace =
      ((l.dropWhile isPySpace).reverse.dropWhile isPySpace).reverse ++
        ((l.dropWhile isPySpace).reverse.takeWhile isPySpace).reverse := by
    rw [← List.reverse_append, List.takeWhile_append_dropWhile, List.reverse_reverse]
  have hw : ∀ c ∈ ((l.dropWhile isPySpace).reverse.takeWhile isPySpace).reverse,
      isPySpace c = true := by
    intro c hc
    rw [List.mem_reverse] at hc
    exact List.mem_takeWhile_imp hc
  exact hasSK_left_of_append _ _ hw (by rw [← hdecomp]; exact h1)

theorem takeWhile_all_append {α : Type} (p : α → Bool) (u v : List α)
    (h : ∀ x ∈ u, p x = true) :
    (u ++ v).takeWhile p = u ++ v.takeWhile p := by
  induction u with
  | nil => simp
  | cons a u ih =>
    rw [List.cons_append, List.takeWhile_cons, h a (List.mem_cons_self _ _)]
    simp only [if_true, List.cons_append]
    rw [ih fun x hx => h x (List.mem_cons_of_mem _ hx)]

theorem dropWhile_all_append {α : Type} (p : α → Bool) (u v : List α)
    (h : ∀ x ∈ u, p x = true) :
    (u ++ v).dropWhile p = v.dropWhile p := by
  induction u with
  | nil => simp
  | cons a u ih =>
    rw [List.cons_append, List.dropWhile_cons, h a (List.mem_cons_self _ _)]
    simp only [if_true]
    exact ih fun x hx => h x (List.mem_cons_of_mem _ hx)

theorem join_ne_nil (t : List Char) (ts : List (List Char)) (ht : t ≠ []) :
    joinSpaceData (t :: ts) ≠ [] := by
  cases ts with
  | nil => simpa [joinSpaceData] using ht
  | cons t2 ts2 =>
    simp only [joinSpaceData]
    cases t with
    | nil => exact absurd rfl ht
    | cons c t0 => simp

theorem join_head_strip (T : List (List Char))
    (h : ∀ t ∈ T, t ≠ [] ∧ ∀ c ∈ t, isPySpace c = false) :
    (joinSpaceData T).dropWhile isPySpace = joinSpaceData T := by
  cases T with
  | nil => rfl
  | cons t ts =>
    obtain ⟨c, t0, rfl⟩ : ∃ c t0, t = c :: t0 := by
      cases t with
      | nil => exact absurd rfl (h [] (List.mem_cons_self _ _)).1
      | cons c t0 => exact ⟨c, t0, rfl⟩
    have hc : isPySpace c = false :=
      (h _ (List.mem_cons_self _ _)).2 c (List.mem_cons_self _ _)
    cases ts with
    | nil =>
      simp only [joinSpaceData]
      rw [List.dropWhile_cons]
      simp [hc]
    | cons t2 ts2 =>
      simp only [joinSpaceData]
      rw [List.cons_append, List.dropWhile_cons]
      simp [hc]

theorem join_reverse_head :
    ∀ T : List (List Char), (∀ t ∈ T, t ≠ [] ∧ ∀ c ∈ t, isPySpace c = false) →
      (joinSpaceData T).reverse.dropWhile isPySpace = (joinSpaceData T).reverse := by
  intro T
  induction T with
  | nil => intro _; rfl
  | cons t ts ih =>
    intro h
    cases ts with
    | nil =>
      simp only [joinSpaceData]
      rcases hrev : t.reverse with _ | ⟨a, w⟩
      · rfl
      · have ha : a ∈ t := by
          rw [← List.mem_reverse, hrev]
          exact List.mem_cons_self _ _
        have hsp : isPySpace a = false :=
          (h t (List.mem_cons_self _ _)).2 a ha
        rw [List.dropWhile_cons]
        simp [hsp]
    | cons t2 ts2 =>
      simp only [joinSpaceData]
      rw [List.reverse_append, List.reverse_cons]
      have hJne : joinSpaceData (t2 :: ts2) ≠ [] :=
        join_ne_nil t2 ts2 (h t2 (List.mem_cons_of_mem _ (List.mem_cons_self _ _))).1
      rcases hrev : (joinSpaceData (t2 :: ts2)).reverse with _ | ⟨a, w⟩
      · exact absurd (by rw [← List.reverse_reverse (joinSpaceData (t2 :: ts2)), hrev]; rfl) hJne
      · have hh := ih fun u hu => h u (List.mem_cons_of_mem _ hu)
        rw [hrev] at hh
        have ha : isPySpace a = false := by
          cases hv : isPySpace a
          · rfl
          · rw [List.dropWhile_cons] at hh
            rw [hv] at hh
            simp only [if_true] at hh
            have hlen := congrArg List.length hh
            have hle := dropWhile_len_le isPySpace w
            simp only [List.length_cons] at hlen
            omega
        rw [List.cons_append, List.cons_append, List.dropWhile_cons]
        simp [ha]

theorem joinSpace_stripped (T : List (List Char))
    (h : ∀ t ∈ T, t ≠ [] ∧ ∀ c ∈ t, isPySpace c = false) :
    pyStripData (joinSpaceData T) = joinSpaceData T := by
  rw [pyStripData, join_head_strip T h, join_reverse_head T h, List.reverse_reverse]

theorem splitWs_joinSpace :
    ∀ T : List (List Char), (∀ t ∈ T, t ≠ [] ∧ ∀ c ∈ t, isPySpace c = false) →
      splitWsData (joinSpaceData T) = T := by
  intro T
  induction T with
  | nil => intro _; rfl
  | cons t ts ih =>
    intro h
    obtain ⟨c, t0, rfl⟩ : ∃ c t0, t = c :: t0 := by
      cases t with
      | nil => exact absurd rfl (h [] (List.mem_cons_self _ _)).1
      | cons c t0 => exact ⟨c, t0, rfl⟩
    have hc : isPySpace c = false :=
      (h _ (List.mem_cons_self _ _)).2 c (List.mem_cons_self _ _)
    have ht0 : ∀ x ∈ t0, (fun d => !isPySpace d) x = true := by
      intro x hx
      have := (h _ (List.mem_cons_self _ _)).2 x (List.mem_cons_of_mem _ hx)
      simp [this]
    cases ts with
    | nil =>
      simp only [joinSpaceData]
      rw [splitWsData_cons_nonspace c t0 hc]
      have h1 : t0.takeWhile (fun d => !isPySpace d) = t0 := by
        have := takeWhile_all_append (fun d => !isPySpace d) t0 [] ht0
        simpa using this
      have h2 : t0.dropWhile (fun d => !isPySpace d) = [] := by
        have := dropWhile_all_append (fun d => !isPySpace d) t0 [] ht0
        simpa using this
      rw [h1, h2]
      rfl
    | cons t2 ts2 =>
      simp only [joinSpaceData]
      rw [List.cons_append, splitWsData_cons_nonspace c _ hc]
      rw [takeWhile_all_append _ _ _ ht0, dropWhile_all_append _ _ _ ht0]
      rw [List.takeWhile_cons, List.dropWhile_cons]
      have hsp : (!isPySpace ' ') = false := by decide
      rw [hsp]
      simp only [Bool.false_eq_true, if_false, List.append_nil]
      rw [splitWsData_cons_space ' ' _ (by decide)]
      rw [ih fun u hu => h u (List.mem_cons_of_mem _ hu)]

/-! Alias table lemmas. -/

theorem lookupAlias_mem_values (tab : List (List Char × List Char))
    (t v : List Char) (h : lookupAlias tab t = some v) : v ∈ tab.map Prod.snd := by
  induction tab with
  | nil => simp [lookupAlias] at h
  | cons kv rest ih =>
    rcases kv with ⟨k, w⟩
    rw [lookupAlias] at h
    by_cases hk : (k == t) = true
    · rw [if_pos hk] at h
      rw [Option.some_inj] at h
      subst h
      exact List.mem_cons_self _ _
    · rw [if_neg hk] at h
      exact List.mem_cons_of_mem _ (ih h)

theorem applyAliasD_idem (t : List Char) :
    applyAliasD (applyAliasD t) = applyAliasD t := by
  cases hl : lookupAlias ALIASES t with
  | none => simp [applyAliasD, hl]
  | some v =>
    have hv : v ∈ ALIASES.map Prod.snd := lookupAlias_mem_values _ _ _ hl
    have hnone : lookupAlias ALIASES v = none := by
      fin_cases hv <;> decide
    simp [applyAliasD, hl, hnone]

theorem applyAliasD_good (t : List Char)
    (h : t ≠ [] ∧ ∀ c ∈ t, isPySpace c = false) :
    applyAliasD t ≠ [] ∧ ∀ c ∈ applyAliasD t, isPySpace c = false := by
  cases hl : lookupAlias ALIASES t with
  | none => simpa [applyAliasD, hl] using h
  | some v =>
    have hv : v ∈ ALIASES.map Prod.snd := lookupAlias_mem_values _ _ _ hl
    simp only [applyAliasD, hl]
    fin_cases hv <;> exact ⟨by decide, by decide⟩

theorem applyAliasD_skfree (t : List Char) (h : hasSK true t = false) :
    hasSK true (applyAliasD t) = false := by
  cases hl : lookupAlias ALIASES t with
  | none => simpa [applyAliasD, hl] using h
  | some v =>
    have hv : v ∈ ALIASES.map Prod.snd := lookupAlias_mem_values _ _ _ hl
    simp only [applyAliasD, hl]
    fin_cases hv <;> decide

/-! Alias replacement and idempotence of the normalizer. -/

/-- C8: the alias pass maps the whitespace tokens one to one in order: the
output is the single-space join of the rewritten tokens, the token count is
unchanged, the token at each index is the alias value when the input token
is exactly a key and the input token itself otherwise, and splitting the
output recovers exactly that rewritten token list. -/
theorem alias_rewrite_per_token (cmd : String) :
    (replace_aliases cmd).data =
      joinSpaceData ((splitWsData (pyStripData cmd.data)).map applyAliasD) ∧
    ((splitWsData (pyStripData cmd.data)).map applyAliasD).length =
      (splitWsData (pyStripData cmd.data)).length ∧
    (∀ (i : Nat) (t : List Char), (splitWsData (pyStripData cmd.data))[i]? = some t →
      ((splitWsData (pyStripData cmd.data)).map applyAliasD)[i]? =
        some (match lookupAlias ALIASES t with | some v => v | none => t)) ∧
    splitWsData (replace_aliases cmd).data =
      (splitWsData (pyStripData cmd.data)).map applyAliasD := by
  have hgood : ∀ t ∈ (splitWsData (pyStripData cmd.data)).map applyAliasD,
      t ≠ [] ∧ ∀ c ∈ t, isPySpace c = false := by
    intro t ht
    rcases List.mem_map.mp ht with ⟨u, hu, rfl⟩
    exact applyAliasD_good u (splitWsData_good _ u hu)
  refine ⟨rfl, List.length_map _ _, ?_, ?_⟩
  · intro i t ht
    rw [List.getElem?_map, ht]
    rfl
  · show splitWsData (joinSpaceData _) = _
    exact splitWs_joinSpace _ hgood

theorem hasSKC_space_sep (t r : List Char) (pnw : Bool) :
    hasSKC pnw (t ++ ' ' :: r) true = (hasSKC pnw t true || hasSKC true r true) := by
  rw [hasSKC_append]
  have h1 : headNW (' ' :: r) true = true := by
    simp [headNW]
    decide
  rw [h1]
  have h2 : ∀ f, hasSKC f (' ' :: r) true = hasSKC true r true := by
    intro f
    rw [hasSKC]
    have hk : (' ' == 'k') = false := by decide
    have hw : (!isWordChar ' ') = true := by decide
    rw [hk, Bool.false_and, Bool.false_and, Bool.false_or, hw]
  rw [h2]

theorem hasSK_joinSpace :
    ∀ T : List (List Char), (∀ t ∈ T, hasSK true t = false) →
      hasSK true (joinSpaceData T) = false := by
  intro T
  induction T with
  | nil => intro _; rfl
  | cons t ts ih =>
    intro h
    cases ts with
    | nil => exact h t (List.mem_cons_self _ _)
    | cons t2 ts2 =>
      simp only [joinSpaceData]
      rw [hasSK, hasSKC_space_sep, Bool.or_eq_false_iff]
      exact ⟨h t (List.mem_cons_self _ _),
        ih fun u hu => h u (List.mem_cons_of_mem _ hu)⟩

theorem canon_idem (l : List Char) :
    replaceAliasesData (subKAux true (replaceAliasesData (subKAux true l))) =
      replaceAliasesData (subKAux true l) := by
  have hxsk : hasSK true (subKAux true l) = false := hasSK_subKAux l true
  have hgood : ∀ t ∈ (splitWsData (pyStripData (subKAux true l))).map applyAliasD,
      t ≠ [] ∧ ∀ c ∈ t, isPySpace c = false := by
    intro t ht
    rcases List.mem_map.mp ht with ⟨u, hu, rfl⟩
    exact applyAliasD_good u (splitWsData_good _ u hu)
  have hskfree : ∀ t ∈ (splitWsData (pyStripData (subKAux true l))).map applyAliasD,
      hasSK true t = false := by
    intro t ht
    rcases List.mem_map.mp ht with ⟨u, hu, rfl⟩
    apply applyAliasD_skfree
    exact tokens_skfree (pyStripData (subKAux true l)).length _ (le_refl _)
      (hasSK_pyStrip _ hxsk) u hu
  have hy_sk : hasSK true (replaceAliasesData (subKAux true l)) = false := by
    rw [replaceAliasesData]
    exact hasSK_joinSpace _ hskfree
  have h1 : subKAux true (replaceAliasesData (subKAux true l)) =
      replaceAliasesData (subKAux true l) :=
    subKAux_of_not_hasSK _ _ hy_sk
  rw [h1]
  conv_lhs => rw [replaceAliasesData]
  have h2 : pyStripData (replaceAliasesData (subKAux true l)) =
      replaceAliasesData (subKAux true l) := by
    rw [replaceAliasesData]
    exact joinSpace_stripped _ hgood
  rw [h2]
  have h3 : splitWsData (replaceAliasesData (subKAux true l)) =
      (splitWsData (pyStripData (subKAux true l))).map applyAliasD := by
    rw [replaceAliasesData]
    exact splitWs_joinSpace _ hgood
  rw [h3]
  have h4 : ((splitWsData (pyStripData (subKAux true l))).map applyAliasD).map
      applyAliasD = (splitWsData (pyStripData (subKAux true l))).map applyAliasD := by
    rw [List.map_map]
    have hfun : applyAliasD ∘ applyAliasD = applyAliasD := funext applyAliasD_idem
    rw [hfun]
  rw [h4]
  rw [replaceAliasesData]

/-- C9: the Normalizer is idempotent, both the checks.py version, which is
the word-boundary shorthand rewrite followed by the alias pass, and the
main.py version, which is the shorthand rewrite alone. -/
theorem normalizer_idempotent (s : String) :
    canonicalize_kubectl (canonicalize_kubectl s) = canonicalize_kubectl s ∧
    canonicalize_kubectl_main (canonicalize_kubectl_main s) =
      canonicalize_kubectl_main s := by
  constructor
  · exact congrArg (fun d => (⟨d⟩ : String)) (canon_idem s.data)
  · have h : subKAux true (subKAux true s.data) = subKAux true s.data :=
      subKAux_of_not_hasSK _ _ (hasSK_subKAux s.data true)
    exact congrArg (fun d => (⟨d⟩ : String)) h

end Ckamock
